import Mathlib

/-!
Verification of the securebootfuzzer guest supervisor against its design
specification.  The Python sources (`Machine/VirtualMachine.py`,
`Machine/CpuArchitecture.py`, `Utils.py`, `main.py`) are shallowly embedded:
pure computations become Lean functions, the effectful lifecycle operations
become functions over explicit event traces and effect logs.
-/

namespace SecureBootFuzzer

/-- CPU architectures supported by the fuzzer (`CpuArchitecture.py`,
`CpuArchitectureType`). -/
inductive CpuArchitectureType where
  | x86_32
  | x86_64
  | aarch64
  | risc_v_32
  | risc_v_64
  | powerpc_32
  | powerpc_64
  deriving DecidableEq, Repr

/-- `qemu_command_mapping` from `CpuArchitecture.py`: architecture to QEMU
binary name. -/
def qemu_command_mapping : CpuArchitectureType → String
  | .x86_32 => "qemu-system-i386"
  | .x86_64 => "qemu-system-x86_64"
  | .aarch64 => "qemu-system-aarch64"
  | .risc_v_32 => "qemu-system-riscv32"
  | .risc_v_64 => "qemu-system-riscv64"
  | .powerpc_32 => "qemu-system-ppc"
  | .powerpc_64 => "qemu-system-ppc64"

/-- `get_qemu_binary` from `CpuArchitecture.py`. -/
def get_qemu_binary (cpu_arch : CpuArchitectureType) : String :=
  qemu_command_mapping cpu_arch

/-- Python `string.ascii_letters`: lowercase then uppercase ASCII letters. -/
def ascii_letters : List Char :=
  (List.range 26).map (fun i => Char.ofNat (97 + i)) ++
    (List.range 26).map (fun i => Char.ofNat (65 + i))

/-- Python `string.digits`. -/
def ascii_digits : List Char :=
  (List.range 10).map (fun i => Char.ofNat (48 + i))

/-- The alphabet `string.ascii_letters + string.digits` that `random_str`
(`Utils.py`) draws from. -/
def random_str_alphabet : List Char := ascii_letters ++ ascii_digits

/-- `random_str` from `Utils.py`.  The calls to `random.choice` are modelled
by an oracle `pick` giving, for each position, the index chosen in the
alphabet. -/
def random_str (N : Nat) (pick : Nat → Fin random_str_alphabet.length) : String :=
  String.mk ((List.range N).map (fun i => random_str_alphabet.get (pick i)))

/-- The control-channel endpoint name assigned in `VirtualMachine.__init__`:
`f"qmp_{random_str(16)}_fuzz.sock"`. -/
def qmp_sock_name (pick : Nat → Fin random_str_alphabet.length) : String :=
  "qmp_" ++ random_str 16 pick ++ "_fuzz.sock"

/-- The two fatal construction-time failures of `VirtualMachine.__init__`:
the KVM cross-architecture rejection (raised `ValueError`, the spec's
`ConfigurationError`) and the missing hypervisor binary (`exit(1)`, the
spec's `ToolNotFound`). -/
inductive InitError where
  | configurationError
  | toolNotFound
  deriving DecidableEq, Repr

/-- The checks performed by `VirtualMachine.__init__` (`VirtualMachine.py`
lines 40-49), in source order: first the KVM cross-architecture check
against the host architecture, then discoverability of the resolved QEMU
binary (`shutil.which`, modelled as a host-supplied predicate on binary
names).  `__init__` spawns no process. -/
def vm_init (host vm_arch : CpuArchitectureType) (kvm_enabled : Bool)
    (which : String → Bool) : Except InitError Unit :=
  if kvm_enabled = true ∧ ¬host = vm_arch then .error .configurationError
  else if which (get_qemu_binary vm_arch) = false then .error .toolNotFound
  else .ok ()

/-- Guest construction followed by `VirtualMachine.start`: the second
component counts hypervisor processes spawned.  A process is created only in
`start`, which runs only when `__init__` succeeded, and spawns exactly one
QEMU subprocess. -/
def vm_bringup (host vm_arch : CpuArchitectureType) (kvm_enabled : Bool)
    (which : String → Bool) : Except InitError Unit × Nat :=
  match vm_init host vm_arch kvm_enabled which with
  | .error e => (.error e, 0)
  | .ok _ => (.ok (), 1)

/-- The bring-up loop of `main.py` (`for i in range(args.concurrent_vms)`):
each index constructs one guest; an exception propagates out of the loop, so
construction is attempted exactly once per index and the loop stops at the
first failure.  Returns the overall result and the list of indices whose
construction was attempted, in order. -/
def start_all (mk : Nat → Except InitError Unit) :
    List Nat → Except InitError Unit × List Nat
  | [] => (.ok (), [])
  | i :: rest =>
    match mk i with
    | .error e => (.error e, [i])
    | .ok _ =>
      let r := start_all mk rest
      (r.1, i :: r.2)

theorem random_str_alphabet_alnum :
    ∀ c ∈ random_str_alphabet, (c.isAlpha || c.isDigit) = true := by decide

/-- Claim C10: `random_str N` returns a string of exactly `N` characters,
each an ASCII letter or decimal digit, and the control-channel endpoint name
is `"qmp_"` followed by 16 such characters followed by `"_fuzz.sock"`. -/
theorem random_str_length_alnum_sock_shape
    (N : Nat) (pick : Nat → Fin random_str_alphabet.length) :
    ((random_str N pick).length = N ∧
      ∀ c ∈ (random_str N pick).data, (c.isAlpha || c.isDigit) = true) ∧
    ∃ s : String, s.length = 16 ∧
      (∀ c ∈ s.data, (c.isAlpha || c.isDigit) = true) ∧
      qmp_sock_name pick = "qmp_" ++ s ++ "_fuzz.sock" := by
  have hall : ∀ (M : Nat), ∀ c ∈ (random_str M pick).data,
      (c.isAlpha || c.isDigit) = true := by
    intro M c hc
    simp only [random_str, List.mem_map, List.mem_range] at hc
    obtain ⟨i, -, rfl⟩ := hc
    exact random_str_alphabet_alnum _ (List.get_mem _ (pick i).1 (pick i).2)
  refine ⟨⟨?_, hall N⟩, random_str 16 pick, ?_, hall 16, rfl⟩
  · simp [random_str, String.length]
  · simp [random_str, String.length]

/-- Claim C8: requesting acceleration (KVM) with a host architecture
different from the guest architecture makes construction fail with the
configuration error before any process is spawned; with equal architectures
that error is never raised. -/
theorem kvm_cross_arch_rejected (host vm_arch : CpuArchitectureType)
    (kvm_enabled : Bool) (which : String → Bool) :
    (kvm_enabled = true → ¬host = vm_arch →
      vm_bringup host vm_arch kvm_enabled which =
        (.error .configurationError, 0)) ∧
    (host = vm_arch →
      (vm_bringup host vm_arch kvm_enabled which).1 ≠
        .error .configurationError) := by
  constructor
  · intro hk hne
    simp [vm_bringup, vm_init, hk, hne]
  · intro heq
    simp only [vm_bringup, vm_init, heq]
    rcases h : which (get_qemu_binary vm_arch) with _ | _ <;> simp [h]

theorem kvm_cross_arch_rejected_witness :
    vm_bringup .x86_64 .aarch64 true (fun _ => true) =
      (.error .configurationError, 0) ∧
    (vm_bringup .x86_64 .x86_64 true (fun _ => true)).1 ≠
      .error .configurationError :=
  ⟨(kvm_cross_arch_rejected .x86_64 .aarch64 true (fun _ => true)).1 rfl
      (by decide),
   (kvm_cross_arch_rejected .x86_64 .x86_64 true (fun _ => true)).2 rfl⟩

/-- Claim C9: when the resolved hypervisor binary is not discoverable (and
the configuration check does not fire first), guest creation fails with the
tool-not-found error before any process is created, and the caller's
bring-up loop aborts at that guest without retrying: the failing index is
attempted exactly once and no later index is attempted. -/
theorem tool_not_found_aborts (host vm_arch : CpuArchitectureType)
    (kvm_enabled : Bool) (which : String → Bool) (i : Nat) (idxs : List Nat)
    (hw : which (get_qemu_binary vm_arch) = false)
    (hk : kvm_enabled = true → host = vm_arch) :
    vm_bringup host vm_arch kvm_enabled which = (.error .toolNotFound, 0) ∧
    start_all (fun _ => vm_init host vm_arch kvm_enabled which) (i :: idxs) =
      (.error .toolNotFound, [i]) := by
  have hinit : vm_init host vm_arch kvm_enabled which = .error .toolNotFound := by
    rcases kvm_enabled with _ | _
    · simp [vm_init, hw]
    · simp [vm_init, hw, hk rfl]
  refine ⟨by simp [vm_bringup, hinit], ?_⟩
  simp [start_all, hinit]

theorem tool_not_found_aborts_witness :
    vm_bringup .x86_64 .x86_64 true (fun _ => false) =
      (.error .toolNotFound, 0) ∧
    start_all (fun _ => vm_init .x86_64 .x86_64 true (fun _ => false))
      (0 :: [1, 2]) = (.error .toolNotFound, [0]) :=
  tool_not_found_aborts .x86_64 .x86_64 true (fun _ => false) 0 [1, 2] rfl
    (fun _ => rfl)

/-- Python substring test `needle in hay` on character lists. -/
def containsSub (needle : List Char) : List Char → Bool
  | [] => needle.isEmpty
  | c :: t => needle.isPrefixOf (c :: t) || containsSub needle t

/-- Python `str.lower()` on the (ASCII) diagnostic text. -/
def py_lower (s : List Char) : List Char := s.map Char.toLower

/-- The Python guard fragment `qemu_process.returncode and
qemu_process.returncode != 0`: `None` and `0` are falsy, any other exit code
makes the conjunction true. -/
def returncode_nonzero : Option Int → Bool
  | none => false
  | some n => decide (n ≠ 0)

/-- One read from the guest's captured stderr: end-of-stream (an empty
read) or one line of text. -/
inductive StreamRead where
  | eof
  | line (msg : List Char)
  deriving DecidableEq, Repr

/-- One iteration's observation in `_health_monitor_proc`: the value read
from the stream and the process return code at that moment. -/
structure MonitorEvent where
  read : StreamRead
  returncode : Option Int
  deriving DecidableEq, Repr

/-- Observable outcome of a health-monitor run: the rolling line buffer, how
often the degradation callback was invoked, how often `shutdown` was
initiated, and whether the loop has stopped. -/
structure MonitorOutcome where
  buffered : List (List Char)
  callbackCount : Nat
  shutdownCount : Nat
  stopped : Bool
  deriving DecidableEq, Repr

/-- The fatal-line condition of `_health_monitor_proc` (`VirtualMachine.py`
lines 127-132), verbatim in source order. -/
def fatal_guard (msg : List Char) (rc : Option Int) : Bool :=
  containsSub ("cannot set up".data) (py_lower msg) ||
    containsSub ("error".data) (py_lower msg) ||
    containsSub ("invalid".data) (py_lower msg) ||
    returncode_nonzero rc

/-- `_health_monitor_proc` (`VirtualMachine.py` lines 108-147) over an
explicit trace of stream reads.  An empty decoded read means QEMU closed:
shutdown, stop.  Otherwise the line is appended to the buffer and the fatal
guard is evaluated; if fatal, the degradation callback is invoked and
shutdown initiated; otherwise the loop continues.  An exhausted trace means
the task is still blocked reading. -/
def health_monitor_proc : List MonitorEvent → List (List Char) → MonitorOutcome
  | [], lines => ⟨lines, 0, 0, false⟩
  | e :: rest, lines =>
    match e.read with
    | .eof => ⟨lines, 0, 1, true⟩
    | .line msg =>
      if fatal_guard msg e.returncode then
        ⟨lines ++ [msg], 1, 1, true⟩
      else
        health_monitor_proc rest (lines ++ [msg])

/-- Written from the spec: case-insensitive containment of a marker. -/
def spec_contains_ci (hay needle : List Char) : Bool :=
  containsSub (py_lower needle) (py_lower hay)

/-- Written from the spec: the process has already exited with a non-zero
return code. -/
def spec_exited_nonzero : Option Int → Bool
  | none => false
  | some n => decide (n ≠ 0)

/-- Written from the spec: a line is fatal iff it case-insensitively
contains one of the markers "error", "invalid", "cannot set up", or the
process has exited with a non-zero code. -/
def spec_fatal_line (msg : List Char) (rc : Option Int) : Bool :=
  spec_contains_ci msg ("error".data) ||
    spec_contains_ci msg ("invalid".data) ||
    spec_contains_ci msg ("cannot set up".data) ||
    spec_exited_nonzero rc

theorem fatal_guard_eq_spec (msg : List Char) (rc : Option Int) :
    fatal_guard msg rc = spec_fatal_line msg rc := by
  have h1 : py_lower ("error".data) = "error".data := by decide
  have h2 : py_lower ("invalid".data) = "invalid".data := by decide
  have h3 : py_lower ("cannot set up".data) = "cannot set up".data := by decide
  simp only [fatal_guard, spec_fatal_line, spec_contains_ci, h1, h2, h3]
  cases containsSub ("cannot set up".data) (py_lower msg) <;>
    cases containsSub ("error".data) (py_lower msg) <;>
      cases containsSub ("invalid".data) (py_lower msg) <;>
        cases rc <;> simp [returncode_nonzero, spec_exited_nonzero]

/-- Claim C2: the monitor takes the fatal path on a line exactly when the
spec's classification calls it fatal (markers case-insensitively contained,
or non-zero exit), and an empty read is a clean exit: teardown is initiated
without invoking the degradation callback. -/
theorem health_monitor_classification (msg : List Char) (rc : Option Int)
    (rest : List MonitorEvent) (buf : List (List Char)) :
    (spec_fatal_line msg rc = true →
      health_monitor_proc (⟨.line msg, rc⟩ :: rest) buf =
        ⟨buf ++ [msg], 1, 1, true⟩) ∧
    (spec_fatal_line msg rc = false →
      health_monitor_proc (⟨.line msg, rc⟩ :: rest) buf =
        health_monitor_proc rest (buf ++ [msg])) ∧
    health_monitor_proc (⟨.eof, rc⟩ :: rest) buf = ⟨buf, 0, 1, true⟩ := by
  refine ⟨fun hf => ?_, fun hf => ?_, rfl⟩
  · simp [health_monitor_proc, fatal_guard_eq_spec, hf]
  · simp [health_monitor_proc, fatal_guard_eq_spec, hf]

theorem health_monitor_classification_witness :
    health_monitor_proc [⟨.line ("ERROR: x".data), none⟩] [] =
      ⟨[("ERROR: x".data)], 1, 1, true⟩ ∧
    health_monitor_proc [⟨.line ("booting".data), none⟩] [] =
      health_monitor_proc [] [("booting".data)] :=
  ⟨(health_monitor_classification ("ERROR: x".data) none [] []).1 (by decide),
   (health_monitor_classification ("booting".data) none [] []).2.1 (by decide)⟩

/-- Written from the spec: the trace contains a fatal line that is reached
before any end-of-stream — every earlier read is a non-fatal line. -/
def fatal_before_clean_exit (events : List MonitorEvent) : Prop :=
  ∃ pre msg rc rest, events = pre ++ ⟨.line msg, rc⟩ :: rest ∧
    spec_fatal_line msg rc = true ∧
    ∀ e ∈ pre, ∃ m, e.read = .line m ∧ spec_fatal_line m e.returncode = false

theorem health_monitor_callback_characterization
    (events : List MonitorEvent) (buf : List (List Char)) :
    (health_monitor_proc events buf).callbackCount = 1 ↔
      fatal_before_clean_exit events := by
  induction events generalizing buf with
  | nil =>
    simp only [health_monitor_proc]
    constructor
    · intro h; exact absurd h (by simp)
    · rintro ⟨pre, msg, rc, rest, h, -, -⟩
      exact absurd h.symm (List.append_ne_nil_of_right_ne_nil pre (by simp))
  | cons e rest ih =>
    obtain ⟨r, rc⟩ := e
    cases r with
    | eof =>
      simp only [health_monitor_proc]
      constructor
      · intro h; exact absurd h (by simp)
      · rintro ⟨pre, msg, mrc, rest2, h, -, hpre⟩
        cases pre with
        | nil => simp at h
        | cons p pre2 =>
          rw [List.cons_append, List.cons.injEq] at h
          obtain ⟨m, hm, -⟩ := hpre p (by simp)
          rw [← h.1] at hm
          simp at hm
    | line msg =>
      simp only [health_monitor_proc]
      rcases hf : fatal_guard msg rc with _ | _
      · rw [if_neg (by simp [hf])]
        rw [ih]
        rw [fatal_guard_eq_spec] at hf
        constructor
        · rintro ⟨pre, m2, rc2, rest2, h, hfat, hpre⟩
          refine ⟨⟨.line msg, rc⟩ :: pre, m2, rc2, rest2, by simp [h], hfat, ?_⟩
          intro p hp
          rcases List.mem_cons.mp hp with h1 | h1
          · exact ⟨msg, by simp [h1], by simp [h1, hf]⟩
          · exact hpre p h1
        · rintro ⟨pre, m2, rc2, rest2, h, hfat, hpre⟩
          cases pre with
          | nil =>
            simp only [List.nil_append, List.cons.injEq] at h
            have hA : StreamRead.line msg = StreamRead.line m2 :=
              congrArg MonitorEvent.read h.1
            have hB : rc = rc2 := congrArg MonitorEvent.returncode h.1
            injection hA with hA
            rw [hA, hB, hfat] at hf
            exact Bool.noConfusion hf
          | cons p pre2 =>
            rw [List.cons_append, List.cons.injEq] at h
            exact ⟨pre2, m2, rc2, rest2, h.2, hfat, fun q hq => hpre q (by simp [h.1, hq])⟩
      · rw [if_pos (by simp [hf])]
        rw [fatal_guard_eq_spec] at hf
        constructor
        · intro _
          exact ⟨[], msg, rc, rest, by simp, hf, by simp⟩
        · intro _
          rfl

theorem health_monitor_callback_le_one (events : List MonitorEvent)
    (buf : List (List Char)) :
    (health_monitor_proc events buf).callbackCount ≤ 1 := by
  induction events generalizing buf with
  | nil => simp [health_monitor_proc]
  | cons e rest ih =>
    obtain ⟨r, rc⟩ := e
    cases r with
    | eof => simp [health_monitor_proc]
    | line msg =>
      simp only [health_monitor_proc]
      rcases hf : fatal_guard msg rc with _ | _
      · rw [if_neg (by simp [hf])]
        exact ih _
      · rw [if_pos (by simp [hf])]

/-- Claim C4: over every trace of stream reads (hence also every prefix, as
left by a cancellation racing with the monitor), the degradation callback is
invoked at most once, and it is invoked exactly once precisely when a
fatal-classified line is reached before end-of-stream; on the clean-exit
trace (end-of-stream first) it is not invoked at all. -/
theorem degradation_callback_once (events : List MonitorEvent) :
    (health_monitor_proc events []).callbackCount ≤ 1 ∧
    ((health_monitor_proc events []).callbackCount = 1 ↔
      fatal_before_clean_exit events) :=
  ⟨health_monitor_callback_le_one events [],
   health_monitor_callback_characterization events []⟩

/-- A job descriptor as returned by `query-jobs`: the fields `_wait_job`
reads. -/
structure Job where
  id : String
  status : String
  deriving DecidableEq, Repr

/-- Written from the spec: a terminal job status. -/
def terminal_status (s : String) : Prop :=
  s = "concluded" ∨ s = "failed" ∨ s = "aborted" ∨ s = "error"

instance (s : String) : Decidable (terminal_status s) := by
  unfold terminal_status
  infer_instance

/-- The inner `for job in jobs` scan of `_wait_job` (`VirtualMachine.py`
lines 154-160): the first job with the sought id and status `concluded`
returns; the first one with status `failed`, `aborted` or `error` raises
carrying the descriptor; any other job is skipped. -/
def scan_jobs (job_id : String) : List Job → Option (Except Job Unit)
  | [] => none
  | j :: rest =>
    if j.id = job_id then
      if j.status = "concluded" then some (.ok ())
      else if j.status = "failed" ∨ j.status = "aborted" ∨ j.status = "error" then
        some (.error j)
      else scan_jobs job_id rest
    else scan_jobs job_id rest

/-- `_wait_job`'s polling loop over the successive `query-jobs` responses:
returns the decision of the first decisive poll together with the number of
`query-jobs` requests issued.  An exhausted response list means the loop is
still polling (`none`). -/
def wait_job (job_id : String) : List (List Job) → Option (Except Job Unit) × Nat
  | [] => (none, 0)
  | poll :: rest =>
    match scan_jobs job_id poll with
    | some r => (some r, 1)
    | none =>
      let r := wait_job job_id rest
      (r.1, r.2 + 1)

theorem scan_jobs_eq_none (job_id : String) (poll : List Job)
    (h : ∀ jb ∈ poll, jb.id = job_id → ¬terminal_status jb.status) :
    scan_jobs job_id poll = none := by
  induction poll with
  | nil => rfl
  | cons j rest ih =>
    simp only [scan_jobs]
    by_cases hid : j.id = job_id
    · have hterm := h j (by simp) hid
      rw [if_pos hid, if_neg (fun hc => hterm (Or.inl hc)),
        if_neg (fun hc => hterm (Or.inr hc))]
      exact ih fun jb hjb => h jb (by simp [hjb])
    · rw [if_neg hid]
      exact ih fun jb hjb => h jb (by simp [hjb])

theorem scan_jobs_unique_match (job_id : String) (poll : List Job) (j : Job)
    (hj : j ∈ poll) (hid : j.id = job_id)
    (huniq : ∀ jb ∈ poll, jb.id = job_id → jb = j) :
    (j.status = "concluded" → scan_jobs job_id poll = some (.ok ())) ∧
    (j.status = "failed" ∨ j.status = "aborted" ∨ j.status = "error" →
      scan_jobs job_id poll = some (.error j)) := by
  induction poll with
  | nil => cases hj
  | cons k rest ih =>
    simp only [scan_jobs]
    by_cases hk : k.id = job_id
    · have hkj : k = j := huniq k (by simp) hk
      subst hkj
      constructor
      · intro hc
        rw [if_pos hk, if_pos hc]
      · intro hc
        have hnc : ¬k.status = "concluded" := by
          rcases hc with hc | hc | hc <;> rw [hc] <;> decide
        rw [if_pos hk, if_neg hnc, if_pos hc]
    · rw [if_neg hk]
      have hj2 : j ∈ rest := by
        rcases List.mem_cons.mp hj with h1 | h1
        · exact absurd (h1 ▸ hid) hk
        · exact h1
      exact ih hj2 fun jb hjb => huniq jb (by simp [hjb])

theorem wait_job_skip_pre (job_id : String) (pre rest : List (List Job))
    (h : ∀ q ∈ pre, scan_jobs job_id q = none) :
    wait_job job_id (pre ++ rest) =
      ((wait_job job_id rest).1, (wait_job job_id rest).2 + pre.length) := by
  induction pre with
  | nil => simp
  | cons q pre2 ih =>
    rw [List.cons_append]
    simp only [wait_job, h q (by simp)]
    rw [ih fun p hp => h p (by simp [hp])]
    simp only [List.length_cons]
    congr 1

/-- Claim C3: when the polls before `poll` contain no terminal status for
the sought job id and `poll` holds the (unique) matching descriptor `j` with
a terminal status, `_wait_job` returns successfully if that status is
`concluded` and fails carrying the full descriptor if it is `failed`,
`aborted` or `error`; in both cases exactly `pre.length + 1` status queries
are issued, whatever responses would come later. -/
theorem wait_job_terminal (job_id : String) (pre : List (List Job))
    (poll : List Job) (extra : List (List Job)) (j : Job)
    (hpre : ∀ q ∈ pre, ∀ jb ∈ q, jb.id = job_id → ¬terminal_status jb.status)
    (hj : j ∈ poll) (hid : j.id = job_id)
    (huniq : ∀ jb ∈ poll, jb.id = job_id → jb = j) :
    (j.status = "concluded" →
      wait_job job_id (pre ++ poll :: extra) =
        (some (.ok ()), pre.length + 1)) ∧
    (j.status = "failed" ∨ j.status = "aborted" ∨ j.status = "error" →
      wait_job job_id (pre ++ poll :: extra) =
        (some (.error j), pre.length + 1)) := by
  have hskip := wait_job_skip_pre job_id pre (poll :: extra)
    fun q hq => scan_jobs_eq_none job_id q (hpre q hq)
  have hscan := scan_jobs_unique_match job_id poll j hj hid huniq
  constructor
  · intro hc
    rw [hskip]
    simp [wait_job, hscan.1 hc, Nat.add_comm]
  · intro hc
    rw [hskip]
    simp [wait_job, hscan.2 hc, Nat.add_comm]

theorem wait_job_terminal_witness :
    wait_job "sbf-save_snapshot-1"
        ([[Job.mk "other" "running"]] ++
          [Job.mk "sbf-save_snapshot-1" "failed"] ::
            [[Job.mk "sbf-save_snapshot-1" "concluded"]]) =
      (some (.error (Job.mk "sbf-save_snapshot-1" "failed")), 2) :=
  (wait_job_terminal "sbf-save_snapshot-1" [[Job.mk "other" "running"]]
      [Job.mk "sbf-save_snapshot-1" "failed"]
      [[Job.mk "sbf-save_snapshot-1" "concluded"]]
      (Job.mk "sbf-save_snapshot-1" "failed")
      (by decide) (by decide) rfl (by decide)).2 (by decide)

/-- The cleanup actions of `VirtualMachine.shutdown` (`VirtualMachine.py`
lines 307-341), in source order. -/
inductive ShutdownStep where
  | detachDebugger
  | cancelMonitor
  | terminateProcess
  | disconnectQmp
  | removeSock
  | removeDisk
  | resetGdbPort
  deriving DecidableEq, Repr

def shutdown_steps : List ShutdownStep :=
  [.detachDebugger, .cancelMonitor, .terminateProcess, .disconnectQmp,
    .removeSock, .removeDisk, .resetGdbPort]

/-- `shutdown` run against an environment `fails` choosing which cleanup
actions raise.  In the source only the QMP disconnect sits in a
`try/except` (lines 327-331), so its failure is logged and the run
continues; an exception in any other step propagates and the remaining
steps never execute.  Returns the steps attempted, in order, and whether
the whole sequence completed. -/
def shutdown_run (fails : ShutdownStep → Bool) :
    List ShutdownStep → List ShutdownStep × Bool
  | [] => ([], true)
  | s :: rest =>
    if fails s = true ∧ ¬s = ShutdownStep.disconnectQmp then ([s], false)
    else
      let r := shutdown_run fails rest
      (s :: r.1, r.2)

def shutdown (fails : ShutdownStep → Bool) : List ShutdownStep × Bool :=
  shutdown_run fails shutdown_steps

/-- Claim C5 counterexample: if terminating the hypervisor process raises
(for instance `ProcessLookupError` on an already-dead process), the
endpoint-file and disk removals and the port reset are never attempted, so
shutdown is not best-effort across all steps. -/
theorem shutdown_aborts_on_kill_failure :
    shutdown (fun s => decide (s = ShutdownStep.terminateProcess)) =
      ([.detachDebugger, .cancelMonitor, .terminateProcess], false) ∧
    ShutdownStep.removeSock ∉
      (shutdown (fun s => decide (s = ShutdownStep.terminateProcess))).1 := by
  decide

/-- Claim C5 as amended: only the QMP-disconnect step is error-tolerant.
When no step other than the QMP disconnect fails, every cleanup step is
attempted in order and the sequence completes, even if the disconnect
itself fails. -/
theorem shutdown_best_effort_only_for_qmp (fails : ShutdownStep → Bool)
    (h : ∀ s, fails s = true → s = ShutdownStep.disconnectQmp) :
    shutdown fails = (shutdown_steps, true) := by
  have key : ∀ l : List ShutdownStep, shutdown_run fails l = (l, true) := by
    intro l
    induction l with
    | nil => rfl
    | cons s rest ih =>
      simp only [shutdown_run]
      rw [if_neg]
      · simp [ih]
      · rintro ⟨hf, hs⟩
        exact hs (h s hf)
  exact key shutdown_steps

theorem shutdown_best_effort_only_for_qmp_witness :
    shutdown (fun s => decide (s = ShutdownStep.disconnectQmp)) =
      (shutdown_steps, true) :=
  shutdown_best_effort_only_for_qmp
    (fun s => decide (s = ShutdownStep.disconnectQmp))
    (fun _ hs => of_decide_eq_true hs)

/-- The hypervisor process handle as `prune_dead_guests` observes it:
`returncode` is `None` while the process still runs. -/
structure ProcHandle where
  returncode : Option Int
  deriving DecidableEq, Repr

/-- A guest as observed by `prune_dead_guests`: `qemu_process` is `None`
once shutdown has cleared the handle. -/
structure Guest where
  qemu_process : Option ProcHandle
  deriving DecidableEq, Repr

/-- The survivor condition of the list comprehension in `prune_dead_guests`
(`main.py` lines 14-19): `guest.qemu_process is not None and
guest.qemu_process.returncode is None`. -/
def guest_alive (g : Guest) : Bool :=
  match g.qemu_process with
  | none => false
  | some p => decide (p.returncode = none)

/-- `prune_dead_guests` from `main.py`. -/
def prune_dead_guests (guests : List Guest) : List Guest :=
  guests.filter guest_alive

/-- Claim C6 counterexample: a guest whose process handle is still present
but whose process has exited (return code 0) is removed by
`prune_dead_guests`, although the claim says every guest with a present
handle is kept. -/
theorem prune_dead_guests_drops_present_handle :
    (Guest.mk (some (ProcHandle.mk (some 0)))).qemu_process.isSome = true ∧
    prune_dead_guests [Guest.mk (some (ProcHandle.mk (some 0)))] = [] := by
  constructor
  · rfl
  · rfl

theorem guest_alive_iff (g : Guest) :
    guest_alive g = true ↔
      ∃ p, g.qemu_process = some p ∧ p.returncode = none := by
  obtain ⟨op⟩ := g
  cases op with
  | none => simp [guest_alive]
  | some p => simp [guest_alive]

/-- Claim C6 as amended: `prune_dead_guests` keeps exactly the guests whose
process handle is present with no recorded exit code, removes exactly the
others (absent handle, or present handle whose process has exited), and is
a stable filter: the result is a sublist of the input, and each guest's
multiplicity is preserved when it survives and zero when it does not. -/
theorem prune_dead_guests_stable_filter (guests : List Guest) :
    (prune_dead_guests guests).Sublist guests ∧
    ∀ g : Guest,
      (prune_dead_guests guests).count g =
        if ∃ p, g.qemu_process = some p ∧ p.returncode = none
        then guests.count g else 0 := by
  refine ⟨List.filter_sublist guests, fun g => ?_⟩
  by_cases hg : ∃ p, g.qemu_process = some p ∧ p.returncode = none
  · rw [if_pos hg]
    exact List.count_filter ((guest_alive_iff g).mpr hg)
  · rw [if_neg hg]
    rw [List.count_eq_zero]
    intro hmem
    exact hg ((guest_alive_iff g).mp (List.of_mem_filter hmem))

/-- Observable outcome of the QMP connection phase of
`VirtualMachine.start`. -/
structure ConnectOutcome where
  connected : Bool
  sleeps : Nat
  shutdownInvoked : Bool
  reachedDebuggerInit : Bool
  deriving DecidableEq, Repr

/-- The QMP connection retry loop of `VirtualMachine.start` (lines
288-302): `for i in range(3)`; a successful attempt breaks out; a failed
attempt is swallowed by the bare `except` and checks `if i != 4` — true for
every produced index — logging, sleeping one second and continuing; the
`else` arm (shut the guest down if spawned, early return) is the loop's
only teardown path.  After the loop, `start` proceeds to
`_init_debugger`. -/
def qmp_connect_loop (ok : Nat → Bool) (process_present : Bool) :
    List Nat → ConnectOutcome
  | [] => ⟨false, 0, false, true⟩
  | i :: rest =>
    if ok i = true then ⟨true, 0, false, true⟩
    else if ¬i = 4 then
      let r := qmp_connect_loop ok process_present rest
      ⟨r.connected, r.sleeps + 1, r.shutdownInvoked, r.reachedDebuggerInit⟩
    else ⟨false, 0, process_present, false⟩

def start_qmp_connect (ok : Nat → Bool) (process_present : Bool) :
    ConnectOutcome :=
  qmp_connect_loop ok process_present (List.range 3)

/-- Claim C1 (code defect): because every loop index satisfies `i != 4`,
the teardown arm is unreachable: for every outcome of the three connection
attempts `start` never invokes `shutdown` from this loop and always falls
through to `_init_debugger`; in particular, when all three attempts fail it
sleeps three times and proceeds without raising and without terminating the
spawned hypervisor process. -/
theorem qmp_connect_failure_no_teardown :
    (∀ (ok : Nat → Bool) (present : Bool),
      (start_qmp_connect ok present).shutdownInvoked = false ∧
      (start_qmp_connect ok present).reachedDebuggerInit = true) ∧
    start_qmp_connect (fun _ => false) true =
      ⟨false, 3, false, true⟩ := by
  have hr : List.range 3 = [0, 1, 2] := rfl
  constructor
  · intro ok present
    rw [start_qmp_connect, hr]
    rcases h0 : ok 0 with _ | _ <;> rcases h1 : ok 1 with _ | _ <;>
      rcases h2 : ok 2 with _ | _ <;>
        simp [qmp_connect_loop, h0, h1, h2]
  · rfl

/-- Decimal digit list of a natural number, most significant digit first —
the list that `Nat.toDigits 10` (hence Python's `str(n)` in the f-string)
produces. -/
def decimal_digits (n : Nat) : List Char :=
  if _h : n < 10 then [Nat.digitChar n]
  else decimal_digits (n / 10) ++ [Nat.digitChar (n % 10)]
termination_by n
decreasing_by exact Nat.div_lt_self (by omega) (by omega)

theorem decimal_digits_lt (n : Nat) (h : n < 10) :
    decimal_digits n = [Nat.digitChar n] := by
  rw [decimal_digits]
  exact dif_pos h

theorem decimal_digits_ge (n : Nat) (h : ¬n < 10) :
    decimal_digits n = decimal_digits (n / 10) ++ [Nat.digitChar (n % 10)] := by
  rw [decimal_digits]
  exact dif_neg h

theorem decimal_digits_ne_nil (n : Nat) : decimal_digits n ≠ [] := by
  by_cases h : n < 10
  · rw [decimal_digits_lt n h]
    simp
  · rw [decimal_digits_ge n h]
    simp

theorem toDigitsCore_eq_decimal (fuel : Nat) : ∀ (n : Nat) (acc : List Char),
    0 < fuel → n < 10 ^ fuel →
    Nat.toDigitsCore 10 fuel n acc = decimal_digits n ++ acc := by
  induction fuel with
  | zero => omega
  | succ fuel ih =>
    intro n acc _ hn
    simp only [Nat.toDigitsCore]
    by_cases hz : n / 10 = 0
    · rw [if_pos hz]
      have hn10 : n < 10 := by omega
      rw [decimal_digits_lt n hn10, Nat.mod_eq_of_lt hn10]
      simp
    · rw [if_neg hz]
      have hfuel2 : 0 < fuel := by
        rcases Nat.eq_zero_or_pos fuel with h0 | h0
        · subst h0
          simp at hn
          omega
        · exact h0
      have hlt : n / 10 < 10 ^ fuel := by
        have hmul : n < 10 ^ fuel * 10 := by
          rw [← pow_succ]
          exact hn
        omega
      rw [ih (n / 10) _ hfuel2 hlt, decimal_digits_ge n (by omega)]
      simp

theorem nat_repr_eq_decimal (n : Nat) :
    Nat.repr n = (decimal_digits n).asString := by
  have h1 : n < 10 ^ (n + 1) :=
    lt_of_lt_of_le (Nat.lt_pow_self (by omega) n)
      (Nat.pow_le_pow_right (by omega) (by omega))
  unfold Nat.repr Nat.toDigits
  rw [toDigitsCore_eq_decimal (n + 1) n [] (by omega) h1, List.append_nil]

theorem digitChar_inj_lt : ∀ a < 10, ∀ b < 10,
    Nat.digitChar a = Nat.digitChar b → a = b := by decide

theorem decimal_digits_inj (m : Nat) : ∀ n : Nat,
    decimal_digits m = decimal_digits n → m = n := by
  induction m using Nat.strong_induction_on with
  | _ m ih =>
    intro n h
    by_cases hm : m < 10 <;> by_cases hn : n < 10
    · rw [decimal_digits_lt m hm, decimal_digits_lt n hn] at h
      simp only [List.cons.injEq, and_true] at h
      exact digitChar_inj_lt m hm n hn h
    · rw [decimal_digits_lt m hm, decimal_digits_ge n hn] at h
      have hlen := congrArg List.length h
      have hpos := List.length_pos.mpr (decimal_digits_ne_nil (n / 10))
      simp only [List.length_cons, List.length_append, List.length_nil] at hlen
      omega
    · rw [decimal_digits_ge m hm, decimal_digits_lt n hn] at h
      have hlen := congrArg List.length h
      have hpos := List.length_pos.mpr (decimal_digits_ne_nil (m / 10))
      simp only [List.length_cons, List.length_append, List.length_nil] at hlen
      omega
    · rw [decimal_digits_ge m hm, decimal_digits_ge n hn] at h
      obtain ⟨h1, h2⟩ := List.append_inj' h (by simp)
      simp only [List.cons.injEq, and_true] at h2
      have hmod : m % 10 = n % 10 :=
        digitChar_inj_lt (m % 10) (Nat.mod_lt m (by omega)) (n % 10)
          (Nat.mod_lt n (by omega)) h2
      have hdiv : m / 10 = n / 10 :=
        ih (m / 10) (Nat.div_lt_self (by omega) (by omega)) (n / 10) h1
      omega

theorem nat_repr_data_inj (m n : Nat)
    (h : (Nat.repr m).data = (Nat.repr n).data) : m = n := by
  rw [nat_repr_eq_decimal, nat_repr_eq_decimal] at h
  exact decimal_digits_inj m n h

/-- The two snapshot operations a guest issues jobs for. -/
inductive SnapOp where
  | save
  | load
  deriving DecidableEq, Repr

/-- The job identifier built in `save_snapshot` / `load_snapshot`
(`VirtualMachine.py` lines 166 and 181): `f"sbf-save_snapshot-{n}"` resp.
`f"sbf-load_snapshot-{n}"`, where `n` is the just-incremented
`job_counter`. -/
def snapshot_job_id : SnapOp → Nat → String
  | .save, n => "sbf-save_snapshot-" ++ Nat.repr n
  | .load, n => "sbf-load_snapshot-" ++ Nat.repr n

theorem snapshot_job_id_inj (k1 k2 : SnapOp) (m n : Nat)
    (h : snapshot_job_id k1 m = snapshot_job_id k2 n) : k1 = k2 ∧ m = n := by
  have hdata := congrArg String.data h
  cases k1 <;> cases k2 <;>
    simp only [snapshot_job_id, String.data_append] at hdata
  · exact ⟨rfl, nat_repr_data_inj m n (List.append_cancel_left hdata)⟩
  · obtain ⟨hpre, -⟩ := List.append_inj hdata (by decide)
    exact absurd hpre (by decide)
  · obtain ⟨hpre, -⟩ := List.append_inj hdata (by decide)
    exact absurd hpre (by decide)
  · exact ⟨rfl, nat_repr_data_inj m n (List.append_cancel_left hdata)⟩

/-- The ids issued by a sequence of `save_snapshot` / `load_snapshot` calls
starting from a given `job_counter` value: each call first increments the
counter, then renders the id from it. -/
def issued_job_ids (counter : Nat) : List SnapOp → List String
  | [] => []
  | op :: ops =>
    snapshot_job_id op (counter + 1) :: issued_job_ids (counter + 1) ops

/-- The successive `job_counter` values embedded in those ids. -/
def issued_counters (counter : Nat) : List SnapOp → List Nat
  | [] => []
  | _ :: ops => (counter + 1) :: issued_counters (counter + 1) ops

theorem issued_job_ids_mem (counter : Nat) (ops : List SnapOp) (s : String)
    (h : s ∈ issued_job_ids counter ops) :
    ∃ op n, counter < n ∧ s = snapshot_job_id op n := by
  induction ops generalizing counter with
  | nil => cases h
  | cons op ops ih =>
    rcases List.mem_cons.mp h with h1 | h1
    · exact ⟨op, counter + 1, by omega, h1⟩
    · obtain ⟨op2, n, hn, rfl⟩ := ih (counter + 1) h1
      exact ⟨op2, n, by omega, rfl⟩

/-- Claim C7: along any sequence of snapshot saves and loads, the issued
job identifiers are pairwise distinct, the guest-local counter values they
embed are strictly increasing, and each id is the rendering of its
operation kind with its counter value. -/
theorem snapshot_job_ids_distinct (counter : Nat) (ops : List SnapOp) :
    List.Pairwise (fun a b => a ≠ b) (issued_job_ids counter ops) ∧
    List.Chain' (fun a b => a < b) (issued_counters counter ops) ∧
    issued_job_ids counter ops =
      List.zipWith snapshot_job_id ops (issued_counters counter ops) := by
  refine ⟨?_, ?_, ?_⟩
  · induction ops generalizing counter with
    | nil => exact List.Pairwise.nil
    | cons op ops ih =>
      refine List.pairwise_cons.mpr ⟨?_, ih (counter + 1)⟩
      intro s hs he
      obtain ⟨op2, n, hn, rfl⟩ := issued_job_ids_mem _ _ _ hs
      have := (snapshot_job_id_inj _ _ _ _ he).2
      omega
  · induction ops generalizing counter with
    | nil => exact List.chain'_nil
    | cons op ops ih =>
      cases ops with
      | nil => simp [issued_counters]
      | cons op2 ops2 =>
        have hstep :
            issued_counters counter (op :: op2 :: ops2) =
              (counter + 1) :: (counter + 2) :: issued_counters (counter + 2) ops2 :=
          rfl
        rw [hstep]
        refine List.chain'_cons.mpr ⟨by omega, ?_⟩
        have := ih (counter + 1)
        rwa [show issued_counters (counter + 1) (op2 :: ops2) =
          (counter + 2) :: issued_counters (counter + 2) ops2 from rfl] at this
  · induction ops generalizing counter with
    | nil => rfl
    | cons op ops ih =>
      simp only [issued_job_ids, issued_counters, List.zipWith_cons_cons,
        List.cons.injEq]
      exact ⟨trivial, ih (counter + 1)⟩

end SecureBootFuzzer
